import Mathlib

/-!
Verification of the 2-link planar inverse-kinematics simulator
(`src/main.cpp`). The program reads link lengths and two end-effector
positions, validates feasibility of the straight-line motion, and prints
joint angles along interpolated waypoints.

The embedding is over the real numbers. The single place where the C++
`double` arithmetic can produce a NaN on real inputs is the distance
`d = abs(c)/sqrt(a*a+b*b)` when the two positions coincide (a 0/0); that
value is modelled as `Option ℝ` with `none` for NaN, and the comparisons
`d < t`, `d == 0` are false on `none`, exactly as IEEE comparisons with
NaN are.
-/

namespace TwoLink

/-- The C++ `struct coord {double x; double y;}`, over ℝ. -/
@[ext]
structure coord where
  x : ℝ
  y : ℝ

/-- `double norm(double a, double b){ return sqrt(a*a+b*b); }` -/
noncomputable def norm (a b : ℝ) : ℝ := Real.sqrt (a * a + b * b)

/-- C's `atan2(y, x)`, embedded as the argument of the complex number
`x + y·i` (range `(-π, π]`, `atan2 0 0 = 0`). -/
noncomputable def atan2 (y x : ℝ) : ℝ := Complex.arg ⟨x, y⟩

/-- `coord from_pos_to_angle(coord pos, coord L)`: the inverse-kinematics
solver. The returned `coord` holds `(theta1, theta2)` in fields `(x, y)`,
with `L.x = L1` and `L.y = L2`. -/
noncomputable def from_pos_to_angle (pos L : coord) : coord :=
  let theta2 := Real.arccos ((pos.x * pos.x + pos.y * pos.y - L.x * L.x - L.y * L.y) /
    (2 * L.x * L.y))
  let theta1 := atan2 pos.y pos.x -
    atan2 (L.y * Real.sin theta2) (L.x + L.y * Real.cos theta2)
  ⟨theta1, theta2⟩

/-- Which branch of `is_given_inputs_feasible` fires: the three `exit(0)`
branches, or the plain `return true`. -/
inductive FeasibilityResult where
  | ok
  | outOfRange
  | pathInfeasible
  | singularPath
deriving DecidableEq

open Classical in
/-- `double d = abs(c)/sqrt(a*a + b*b)`, the distance of the trajectory
line from the origin, with `a = y0 - y1`, `b = -x0 + x1`,
`c = y0*(x0 - x1) - (y0 - y1)*x0`. When the divisor is zero (exactly when
the two positions coincide, which also forces `c = 0`) the C++ double is
the NaN `0.0/0.0`; that is modelled as `none`. -/
noncomputable def lineDist (pos_init pos_des : coord) : Option ℝ :=
  let a := pos_init.y - pos_des.y
  let b := -pos_init.x + pos_des.x
  let c := pos_init.y * (pos_init.x - pos_des.x) - (pos_init.y - pos_des.y) * pos_init.x
  if Real.sqrt (a * a + b * b) = 0 then none
  else some (|c| / Real.sqrt (a * a + b * b))

/-- The comparison `d < t` on the possibly-NaN distance: false on NaN,
as in IEEE arithmetic. -/
def distLt (d : Option ℝ) (t : ℝ) : Prop :=
  match d with
  | none => False
  | some v => v < t

/-- The comparison `d == 0` on the possibly-NaN distance: false on NaN,
as in IEEE arithmetic. -/
def distEqZero (d : Option ℝ) : Prop :=
  match d with
  | none => False
  | some v => v = 0

open Classical in
/-- `bool is_given_inputs_feasible(coord pos_init, coord pos_des, coord L)`:
the feasibility check, recording which `exit(0)` branch fires. -/
noncomputable def is_given_inputs_feasible (pos_init pos_des L : coord) :
    FeasibilityResult :=
  let x0 := pos_init.x
  let x1 := pos_des.x
  let y0 := pos_init.y
  let y1 := pos_des.y
  let d := lineDist pos_init pos_des
  if norm x0 y0 > L.x + L.y ∨ norm x0 y0 < |L.x - L.y|
      ∨ norm x1 y1 > L.x + L.y ∨ norm x1 y1 < |L.x - L.y| then
    .outOfRange
  else if distLt d |L.x - L.y| then
    .pathInfeasible
  else if L.x = L.y ∧ distEqZero d then
    .singularPath
  else
    .ok

/-- The interpolated waypoint of iteration `i` of the loop in `main`:
`pos_init + (pos_des - pos_init) * (i + 1) / N` componentwise. -/
noncomputable def waypoint (pos_init pos_des : coord) (N : ℝ) (i : ℕ) : coord :=
  ⟨pos_init.x + (pos_des.x - pos_init.x) * ((i : ℝ) + 1) / N,
   pos_init.y + (pos_des.y - pos_init.y) * ((i : ℝ) + 1) / N⟩

/-- The sequence of `(position, joint angles)` rows printed by `main` on a
feasible input: the initial row printed before the loop, then one row per
loop iteration `i = 0 .. N-1`. -/
noncomputable def trajectory (pos_init pos_des L : coord) (N : ℕ) :
    List (coord × coord) :=
  (pos_init, from_pos_to_angle pos_init L) ::
    (List.range N).map fun i =>
      let p := waypoint pos_init pos_des (N : ℝ) i
      (p, from_pos_to_angle p L)

/-- The three diagnostic messages printed by `is_given_inputs_feasible`
right before `exit(0)`:
`notInOperableRange` stands for
"Position(s) is(are) not in the operable range. Terminating ...",
`straightLineNotPossible` for
"Straight-line trajectory is not possible. Terminating ...", and
`includesSingularPoint` for
"Straight-line trajectory includes a singular point. Terminating ...". -/
inductive Message where
  | notInOperableRange
  | straightLineNotPossible
  | includesSingularPoint
deriving DecidableEq

/-- Outcome of one run of `main`: either an early `exit(0)` with the
printed diagnostic message and the exit code, or the full printed table. -/
inductive RunOutcome where
  | exited (message : Message) (code : ℕ)
  | completed (rows : List (coord × coord))

/-- Control flow of `main`: the feasibility check either exits the process
with code 0 after printing its diagnostic, or the run prints the initial
row and the 50 loop rows. -/
noncomputable def runMain (pos_init pos_des L : coord) : RunOutcome :=
  match is_given_inputs_feasible pos_init pos_des L with
  | .ok => .completed (trajectory pos_init pos_des L 50)
  | .outOfRange => .exited .notInOperableRange 0
  | .pathInfeasible => .exited .straightLineNotPossible 0
  | .singularPath => .exited .includesSingularPoint 0

/-! ## Unfolding and evaluation helpers -/

open Classical in
theorem feas_spec (s g L : coord) :
    is_given_inputs_feasible s g L =
      if norm s.x s.y > L.x + L.y ∨ norm s.x s.y < |L.x - L.y|
          ∨ norm g.x g.y > L.x + L.y ∨ norm g.x g.y < |L.x - L.y| then
        .outOfRange
      else if distLt (lineDist s g) |L.x - L.y| then
        .pathInfeasible
      else if L.x = L.y ∧ distEqZero (lineDist s g) then
        .singularPath
      else
        .ok := rfl

open Classical in
theorem lineDist_spec (s g : coord) :
    lineDist s g =
      if Real.sqrt ((s.y - g.y) * (s.y - g.y) + (-s.x + g.x) * (-s.x + g.x)) = 0 then
        none
      else
        some (|s.y * (s.x - g.x) - (s.y - g.y) * s.x| /
          Real.sqrt ((s.y - g.y) * (s.y - g.y) + (-s.x + g.x) * (-s.x + g.x))) := rfl

theorem sqrt_le_of_le_mul_self {x c : ℝ} (hc : 0 ≤ c) (h : x ≤ c * c) :
    Real.sqrt x ≤ c := by
  have h2 := Real.sqrt_le_sqrt h
  rwa [Real.sqrt_mul_self hc] at h2

theorem le_sqrt_of_mul_self_le {c x : ℝ} (hc : 0 ≤ c) (h : c * c ≤ x) :
    c ≤ Real.sqrt x := by
  have h2 := Real.sqrt_le_sqrt h
  rwa [Real.sqrt_mul_self hc] at h2

theorem lt_sqrt_of_mul_self_lt {c x : ℝ} (hc : 0 ≤ c) (h : c * c < x) :
    c < Real.sqrt x := by
  have h2 := Real.sqrt_lt_sqrt (mul_self_nonneg c) h
  rwa [Real.sqrt_mul_self hc] at h2

/-- The reachability condition of both endpoints rules out the first
branch of the check. -/
theorem not_outOfRange_cond {s g L : coord}
    (hs1 : |L.x - L.y| ≤ norm s.x s.y) (hs2 : norm s.x s.y ≤ L.x + L.y)
    (hg1 : |L.x - L.y| ≤ norm g.x g.y) (hg2 : norm g.x g.y ≤ L.x + L.y) :
    ¬(norm s.x s.y > L.x + L.y ∨ norm s.x s.y < |L.x - L.y|
      ∨ norm g.x g.y > L.x + L.y ∨ norm g.x g.y < |L.x - L.y|) := by
  rintro (h | h | h | h) <;> linarith

/-- Bounds on the `arccos` argument of the solver for a reachable
position. -/
theorem arccos_arg_bounds {p L : coord} (hL1 : 0 < L.x) (hL2 : 0 < L.y)
    (hlo : |L.x - L.y| ≤ norm p.x p.y) (hhi : norm p.x p.y ≤ L.x + L.y) :
    -1 ≤ (p.x * p.x + p.y * p.y - L.x * L.x - L.y * L.y) / (2 * L.x * L.y) ∧
      (p.x * p.x + p.y * p.y - L.x * L.x - L.y * L.y) / (2 * L.x * L.y) ≤ 1 := by
  have hsum : 0 ≤ p.x * p.x + p.y * p.y :=
    add_nonneg (mul_self_nonneg _) (mul_self_nonneg _)
  have hlo2 : (L.x - L.y) * (L.x - L.y) ≤ p.x * p.x + p.y * p.y := by
    have h := mul_self_le_mul_self (abs_nonneg (L.x - L.y)) hlo
    simp only [norm] at h
    rwa [abs_mul_abs_self, Real.mul_self_sqrt hsum] at h
  have hhi2 : p.x * p.x + p.y * p.y ≤ (L.x + L.y) * (L.x + L.y) := by
    have h := mul_self_le_mul_self (Real.sqrt_nonneg _) hhi
    simp only [norm] at h
    rwa [Real.mul_self_sqrt hsum] at h
  have h2L : (0:ℝ) < 2 * L.x * L.y := by positivity
  constructor
  · rw [le_div_iff₀ h2L]
    nlinarith
  · rw [div_le_one h2L]
    nlinarith

theorem distLt_none (t : ℝ) : ¬ distLt none t := fun h => h

theorem distEqZero_none : ¬ distEqZero none := fun h => h

theorem distLt_some {v t : ℝ} : distLt (some v) t ↔ v < t := Iff.rfl

theorem distEqZero_some {v : ℝ} : distEqZero (some v) ↔ v = 0 := Iff.rfl

/-- The divisor `a*a + b*b` is positive when the two positions differ. -/
theorem sumsq_pos_of_ne {s g : coord} (hne : s.x ≠ g.x ∨ s.y ≠ g.y) :
    0 < (s.y - g.y) * (s.y - g.y) + (-s.x + g.x) * (-s.x + g.x) := by
  rcases hne with h | h
  · have hb : -s.x + g.x ≠ 0 := fun h0 => h (by linarith)
    nlinarith [mul_self_pos.mpr hb, mul_self_nonneg (s.y - g.y)]
  · have ha : s.y - g.y ≠ 0 := fun h0 => h (by linarith)
    nlinarith [mul_self_pos.mpr ha, mul_self_nonneg (-s.x + g.x)]

open Classical in
theorem lineDist_eq_some {s g : coord}
    (h : 0 < (s.y - g.y) * (s.y - g.y) + (-s.x + g.x) * (-s.x + g.x)) :
    lineDist s g =
      some (|s.y * (s.x - g.x) - (s.y - g.y) * s.x| /
        Real.sqrt ((s.y - g.y) * (s.y - g.y) + (-s.x + g.x) * (-s.x + g.x))) := by
  rw [lineDist_spec, if_neg]
  intro h0
  rw [Real.sqrt_eq_zero'] at h0
  linarith

theorem lineDist_self (s : coord) : lineDist s s = none := by
  rw [lineDist_spec, if_pos]
  have h : (s.y - s.y) * (s.y - s.y) + (-s.x + s.x) * (-s.x + s.x) = 0 := by ring
  rw [h, Real.sqrt_zero]

open Classical in
theorem feas_eq_outOfRange {s g L : coord}
    (h1 : norm s.x s.y > L.x + L.y ∨ norm s.x s.y < |L.x - L.y|
      ∨ norm g.x g.y > L.x + L.y ∨ norm g.x g.y < |L.x - L.y|) :
    is_given_inputs_feasible s g L = .outOfRange := by
  rw [feas_spec, if_pos h1]

open Classical in
theorem feas_eq_pathInfeasible {s g L : coord}
    (h1 : ¬(norm s.x s.y > L.x + L.y ∨ norm s.x s.y < |L.x - L.y|
      ∨ norm g.x g.y > L.x + L.y ∨ norm g.x g.y < |L.x - L.y|))
    (h2 : distLt (lineDist s g) |L.x - L.y|) :
    is_given_inputs_feasible s g L = .pathInfeasible := by
  rw [feas_spec, if_neg h1, if_pos h2]

open Classical in
theorem feas_eq_singularPath {s g L : coord}
    (h1 : ¬(norm s.x s.y > L.x + L.y ∨ norm s.x s.y < |L.x - L.y|
      ∨ norm g.x g.y > L.x + L.y ∨ norm g.x g.y < |L.x - L.y|))
    (h2 : ¬ distLt (lineDist s g) |L.x - L.y|)
    (h3 : L.x = L.y ∧ distEqZero (lineDist s g)) :
    is_given_inputs_feasible s g L = .singularPath := by
  rw [feas_spec, if_neg h1, if_neg h2, if_pos h3]

open Classical in
theorem feas_eq_ok {s g L : coord}
    (h1 : ¬(norm s.x s.y > L.x + L.y ∨ norm s.x s.y < |L.x - L.y|
      ∨ norm g.x g.y > L.x + L.y ∨ norm g.x g.y < |L.x - L.y|))
    (h2 : ¬ distLt (lineDist s g) |L.x - L.y|)
    (h3 : ¬(L.x = L.y ∧ distEqZero (lineDist s g))) :
    is_given_inputs_feasible s g L = .ok := by
  rw [feas_spec, if_neg h1, if_neg h2, if_neg h3]

/-! ## Claims -/

/-- C1: for positive link lengths, the inverse-kinematics solver returns
exactly the pair with
`theta2 = arccos((x² + y² - L1² - L2²) / (2 L1 L2))` and
`theta1 = atan2(y, x) - atan2(L2 sin theta2, L1 + L2 cos theta2)`. -/
theorem c1_solver_formula (pos L : coord) (hL1 : 0 < L.x) (hL2 : 0 < L.y) :
    from_pos_to_angle pos L =
      ⟨atan2 pos.y pos.x -
        atan2
          (L.y * Real.sin (Real.arccos
            ((pos.x ^ 2 + pos.y ^ 2 - L.x ^ 2 - L.y ^ 2) / (2 * L.x * L.y))))
          (L.x + L.y * Real.cos (Real.arccos
            ((pos.x ^ 2 + pos.y ^ 2 - L.x ^ 2 - L.y ^ 2) / (2 * L.x * L.y)))),
       Real.arccos ((pos.x ^ 2 + pos.y ^ 2 - L.x ^ 2 - L.y ^ 2) / (2 * L.x * L.y))⟩ := by
  have harg : pos.x * pos.x + pos.y * pos.y - L.x * L.x - L.y * L.y =
      pos.x ^ 2 + pos.y ^ 2 - L.x ^ 2 - L.y ^ 2 := by ring
  simp only [from_pos_to_angle, harg]

theorem c1_solver_formula_witness :
    (0:ℝ) < 1 ∧
      from_pos_to_angle ⟨1, 1⟩ ⟨1, 1⟩ =
        ⟨atan2 1 1 -
          atan2
            ((1:ℝ) * Real.sin (Real.arccos
              (((1:ℝ) ^ 2 + 1 ^ 2 - 1 ^ 2 - 1 ^ 2) / (2 * 1 * 1))))
            ((1:ℝ) + 1 * Real.cos (Real.arccos
              (((1:ℝ) ^ 2 + 1 ^ 2 - 1 ^ 2 - 1 ^ 2) / (2 * 1 * 1)))),
         Real.arccos (((1:ℝ) ^ 2 + 1 ^ 2 - 1 ^ 2 - 1 ^ 2) / (2 * 1 * 1))⟩ :=
  ⟨by norm_num, c1_solver_formula ⟨1, 1⟩ ⟨1, 1⟩ (by norm_num) (by norm_num)⟩

/-- C4: the check signals `OutOfRange` exactly when at least one of the
two endpoints violates `|L1 - L2| ≤ norm(x, y) ≤ L1 + L2`. -/
theorem c4_outOfRange_iff (s g L : coord) :
    is_given_inputs_feasible s g L = .outOfRange ↔
      ¬((|L.x - L.y| ≤ norm s.x s.y ∧ norm s.x s.y ≤ L.x + L.y) ∧
        (|L.x - L.y| ≤ norm g.x g.y ∧ norm g.x g.y ≤ L.x + L.y)) := by
  rw [feas_spec]
  by_cases h1 : norm s.x s.y > L.x + L.y ∨ norm s.x s.y < |L.x - L.y|
      ∨ norm g.x g.y > L.x + L.y ∨ norm g.x g.y < |L.x - L.y|
  · rw [if_pos h1]
    refine iff_of_true rfl ?_
    rintro ⟨⟨ha1, ha2⟩, ⟨hb1, hb2⟩⟩
    rcases h1 with h | h | h | h <;> linarith
  · rw [if_neg h1]
    push_neg at h1
    refine iff_of_false ?_ ?_
    · intro h
      revert h
      split
      · simp
      · split <;> simp
    · intro hcon
      exact hcon ⟨⟨h1.2.1, h1.1⟩, ⟨h1.2.2.2, h1.2.2.1⟩⟩

/-- C7: for positive link lengths and any position in the reachable
annulus, the `arccos` argument of the solver lies in `[-1, 1]` (so the
computation is finite) and the returned `theta2` lies in `[0, π]`: the
elbow-down mirror solution with negative `theta2` is never produced. -/
theorem c7_theta2_range (p L : coord) (hL1 : 0 < L.x) (hL2 : 0 < L.y)
    (hlo : |L.x - L.y| ≤ norm p.x p.y) (hhi : norm p.x p.y ≤ L.x + L.y) :
    |(p.x * p.x + p.y * p.y - L.x * L.x - L.y * L.y) / (2 * L.x * L.y)| ≤ 1 ∧
      0 ≤ (from_pos_to_angle p L).y ∧ (from_pos_to_angle p L).y ≤ Real.pi := by
  obtain ⟨h1, h2⟩ := arccos_arg_bounds hL1 hL2 hlo hhi
  exact ⟨abs_le.mpr ⟨h1, h2⟩, Real.arccos_nonneg _, Real.arccos_le_pi _⟩

theorem c7_theta2_range_witness :
    (0:ℝ) < 1 ∧
      (|((2:ℝ) * 2 + 0 * 0 - 1 * 1 - 1 * 1) / (2 * 1 * 1)| ≤ 1 ∧
        0 ≤ (from_pos_to_angle ⟨2, 0⟩ ⟨1, 1⟩).y ∧
        (from_pos_to_angle ⟨2, 0⟩ ⟨1, 1⟩).y ≤ Real.pi) :=
  ⟨by norm_num,
    c7_theta2_range ⟨2, 0⟩ ⟨1, 1⟩ (by norm_num) (by norm_num)
      (by
        simp only [norm]
        norm_num [Real.sqrt_nonneg])
      (by
        exact sqrt_le_of_le_mul_self (by norm_num) (by norm_num))⟩

/-- C3: for distinct endpoints both lying in the reachable annulus, the
check signals `PathInfeasible` exactly when `d < |L1 - L2|`, where
`d = |c| / sqrt(a² + b²)` with `a = y0 - y1`, `b = x1 - x0`,
`c = y0 (x0 - x1) - (y0 - y1) x0` is the origin's perpendicular distance
to the line through the two endpoints. -/
theorem c3_pathInfeasible_iff (s g L : coord)
    (hne : s.x ≠ g.x ∨ s.y ≠ g.y)
    (hs1 : |L.x - L.y| ≤ norm s.x s.y) (hs2 : norm s.x s.y ≤ L.x + L.y)
    (hg1 : |L.x - L.y| ≤ norm g.x g.y) (hg2 : norm g.x g.y ≤ L.x + L.y) :
    is_given_inputs_feasible s g L = .pathInfeasible ↔
      |s.y * (s.x - g.x) - (s.y - g.y) * s.x| /
        Real.sqrt ((s.y - g.y) ^ 2 + (g.x - s.x) ^ 2) < |L.x - L.y| := by
  have h1 := not_outOfRange_cond hs1 hs2 hg1 hg2
  have hsome := lineDist_eq_some (sumsq_pos_of_ne hne)
  have hsq : (s.y - g.y) * (s.y - g.y) + (-s.x + g.x) * (-s.x + g.x) =
      (s.y - g.y) ^ 2 + (g.x - s.x) ^ 2 := by ring
  rw [feas_spec, if_neg h1, hsome, hsq]
  by_cases h2 : distLt
      (some (|s.y * (s.x - g.x) - (s.y - g.y) * s.x| /
        Real.sqrt ((s.y - g.y) ^ 2 + (g.x - s.x) ^ 2)))
      |L.x - L.y|
  · rw [if_pos h2]
    exact iff_of_true rfl (distLt_some.mp h2)
  · rw [if_neg h2]
    refine iff_of_false ?_ (fun h => h2 (distLt_some.mpr h))
    split
    · simp
    · simp

theorem c3_pathInfeasible_iff_witness :
    ((2:ℝ) ≠ 3 ∨ (1:ℝ) ≠ 1) ∧
      (is_given_inputs_feasible ⟨2, 1⟩ ⟨3, 1⟩ ⟨3, 1⟩ = .pathInfeasible ↔
        |(1:ℝ) * (2 - 3) - (1 - 1) * 2| /
          Real.sqrt (((1:ℝ) - 1) ^ 2 + ((3:ℝ) - 2) ^ 2) < |(3:ℝ) - 1|) :=
  ⟨Or.inl (by norm_num),
    c3_pathInfeasible_iff ⟨2, 1⟩ ⟨3, 1⟩ ⟨3, 1⟩ (Or.inl (by norm_num))
      (by
        rw [show |(3:ℝ) - 1| = 2 by norm_num]
        exact le_sqrt_of_mul_self_le (by norm_num) (by norm_num))
      (sqrt_le_of_le_mul_self (by norm_num) (by norm_num))
      (by
        rw [show |(3:ℝ) - 1| = 2 by norm_num]
        exact le_sqrt_of_mul_self_le (by norm_num) (by norm_num))
      (sqrt_le_of_le_mul_self (by norm_num) (by norm_num))⟩

/-- C5: with both endpoints in the reachable annulus and the distance
test `d < |L1 - L2|` not firing, the check signals `SingularPath` exactly
when `L1 == L2` and `d == 0` hold under exact equality; and it rejects
`L1 = 2, L2 = 2, start = (2, 0), goal = (-2, 0)` with `SingularPath`. -/
theorem c5_singularPath_iff (s g L : coord)
    (hs1 : |L.x - L.y| ≤ norm s.x s.y) (hs2 : norm s.x s.y ≤ L.x + L.y)
    (hg1 : |L.x - L.y| ≤ norm g.x g.y) (hg2 : norm g.x g.y ≤ L.x + L.y)
    (hd : ¬ distLt (lineDist s g) |L.x - L.y|) :
    (is_given_inputs_feasible s g L = .singularPath ↔
      (L.x = L.y ∧ distEqZero (lineDist s g))) ∧
    is_given_inputs_feasible ⟨2, 0⟩ ⟨-2, 0⟩ ⟨2, 2⟩ = .singularPath := by
  constructor
  · rw [feas_spec, if_neg (not_outOfRange_cond hs1 hs2 hg1 hg2), if_neg hd]
    by_cases h3 : L.x = L.y ∧ distEqZero (lineDist s g)
    · rw [if_pos h3]
      exact iff_of_true rfl h3
    · rw [if_neg h3]
      exact iff_of_false (by simp) h3
  · have h0 : lineDist ⟨2, 0⟩ ⟨-2, 0⟩ = some 0 := by
      rw [lineDist_eq_some (by norm_num)]
      norm_num
    refine feas_eq_singularPath (not_outOfRange_cond ?_ ?_ ?_ ?_) ?_ ?_
    · rw [show |(2:ℝ) - 2| = 0 by norm_num]
      exact Real.sqrt_nonneg _
    · exact sqrt_le_of_le_mul_self (by norm_num) (by norm_num)
    · rw [show |(2:ℝ) - 2| = 0 by norm_num]
      exact Real.sqrt_nonneg _
    · exact sqrt_le_of_le_mul_self (by norm_num) (by norm_num)
    · rw [h0]
      intro h
      rw [distLt_some] at h
      rw [show |(2:ℝ) - 2| = 0 by norm_num] at h
      exact absurd h (by norm_num)
    · exact ⟨rfl, by rw [h0]; exact distEqZero_some.mpr rfl⟩

theorem c5_singularPath_iff_witness :
    ((is_given_inputs_feasible ⟨2, 0⟩ ⟨-2, 0⟩ ⟨2, 2⟩ = .singularPath ↔
        ((2:ℝ) = 2 ∧ distEqZero (lineDist ⟨2, 0⟩ ⟨-2, 0⟩))) ∧
      is_given_inputs_feasible ⟨2, 0⟩ ⟨-2, 0⟩ ⟨2, 2⟩ = .singularPath) :=
  c5_singularPath_iff ⟨2, 0⟩ ⟨-2, 0⟩ ⟨2, 2⟩
    (by
      rw [show |(2:ℝ) - 2| = 0 by norm_num]
      exact Real.sqrt_nonneg _)
    (sqrt_le_of_le_mul_self (by norm_num) (by norm_num))
    (by
      rw [show |(2:ℝ) - 2| = 0 by norm_num]
      exact Real.sqrt_nonneg _)
    (sqrt_le_of_le_mul_self (by norm_num) (by norm_num))
    (by
      rw [lineDist_eq_some (by norm_num)]
      intro h
      rw [distLt_some] at h
      rw [show |(2:ℝ) - 2| = 0 by norm_num] at h
      refine absurd h (not_lt.mpr ?_)
      positivity)

/-- C9: the divisor `sqrt(a² + b²)` of the distance computation vanishes
exactly when the two endpoints coincide; for identical in-range endpoints
the distance is the NaN `0/0` (modelled `none`), every comparison with it
is false, and the check signals no error. -/
theorem c9_identical_endpoints (s L : coord)
    (hs1 : |L.x - L.y| ≤ norm s.x s.y) (hs2 : norm s.x s.y ≤ L.x + L.y) :
    (∀ g : coord,
      (Real.sqrt ((s.y - g.y) * (s.y - g.y) + (-s.x + g.x) * (-s.x + g.x)) = 0 ↔
        g.x = s.x ∧ g.y = s.y)) ∧
    lineDist s s = none ∧
    is_given_inputs_feasible s s L = .ok := by
  refine ⟨?_, lineDist_self s, ?_⟩
  · intro g
    rw [Real.sqrt_eq_zero (add_nonneg (mul_self_nonneg _) (mul_self_nonneg _))]
    constructor
    · intro h
      have hA : (s.y - g.y) * (s.y - g.y) = 0 := by
        nlinarith [mul_self_nonneg (s.y - g.y), mul_self_nonneg (-s.x + g.x)]
      have hB : (-s.x + g.x) * (-s.x + g.x) = 0 := by
        nlinarith [mul_self_nonneg (s.y - g.y), mul_self_nonneg (-s.x + g.x)]
      have h1 := mul_self_eq_zero.mp hA
      have h2 := mul_self_eq_zero.mp hB
      constructor <;> linarith
    · rintro ⟨h1, h2⟩
      rw [h1, h2]
      ring
  · refine feas_eq_ok (not_outOfRange_cond hs1 hs2 hs1 hs2) ?_ ?_
    · rw [lineDist_self]
      exact distLt_none _
    · rintro ⟨-, h⟩
      rw [lineDist_self] at h
      exact distEqZero_none h

theorem c9_identical_endpoints_witness :
    ((∀ g : coord,
        (Real.sqrt (((2:ℝ) - g.y) * (2 - g.y) + (-0 + g.x) * (-0 + g.x)) = 0 ↔
          g.x = 0 ∧ g.y = 2)) ∧
      lineDist ⟨0, 2⟩ ⟨0, 2⟩ = none ∧
      is_given_inputs_feasible ⟨0, 2⟩ ⟨0, 2⟩ ⟨2, 1⟩ = .ok) :=
  c9_identical_endpoints ⟨0, 2⟩ ⟨2, 1⟩
    (by
      rw [show |(2:ℝ) - 1| = 1 by norm_num]
      exact le_sqrt_of_mul_self_le (by norm_num) (by norm_num))
    (sqrt_le_of_le_mul_self (by norm_num) (by norm_num))

/-- C2: on a feasible input the reported sequence with 50 segments has
51 entries: entry 0 is the separately-reported initial pair, entry `i`
for `1 ≤ i ≤ 50` has position `start + (goal - start)·(i/50)` with its
solved angles, and entry 50 is exactly the goal with its solved angles. -/
theorem c2_trajectory_shape (s g L : coord)
    (hfeas : is_given_inputs_feasible s g L = .ok) :
    (trajectory s g L 50).length = 51 ∧
    (trajectory s g L 50).get? 0 = some (s, from_pos_to_angle s L) ∧
    (∀ i : ℕ, 1 ≤ i → i ≤ 50 →
      (trajectory s g L 50).get? i =
        some (⟨s.x + (g.x - s.x) * ((i : ℝ) / 50), s.y + (g.y - s.y) * ((i : ℝ) / 50)⟩,
          from_pos_to_angle
            ⟨s.x + (g.x - s.x) * ((i : ℝ) / 50),
             s.y + (g.y - s.y) * ((i : ℝ) / 50)⟩ L)) ∧
    (trajectory s g L 50).get? 50 = some (g, from_pos_to_angle g L) := by
  have hmid : ∀ i : ℕ, 1 ≤ i → i ≤ 50 →
      (trajectory s g L 50).get? i =
        some (⟨s.x + (g.x - s.x) * ((i : ℝ) / 50), s.y + (g.y - s.y) * ((i : ℝ) / 50)⟩,
          from_pos_to_angle
            ⟨s.x + (g.x - s.x) * ((i : ℝ) / 50),
             s.y + (g.y - s.y) * ((i : ℝ) / 50)⟩ L) := by
    intro i h1 h2
    obtain ⟨j, rfl⟩ : ∃ j, i = j + 1 := ⟨i - 1, by omega⟩
    have hj : j < 50 := by omega
    have hw : waypoint s g ((50:ℕ) : ℝ) j =
        ⟨s.x + (g.x - s.x) * (((j + 1 : ℕ) : ℝ) / 50),
         s.y + (g.y - s.y) * (((j + 1 : ℕ) : ℝ) / 50)⟩ := by
      simp only [waypoint]
      rw [coord.mk.injEq]
      constructor <;> (push_cast; ring)
    simp only [trajectory, List.get?_cons_succ, List.get?_map, List.get?_range hj,
      Option.map_some']
    rw [hw]
  refine ⟨by simp [trajectory], rfl, hmid, ?_⟩
  have h50 := hmid 50 (by norm_num) (by norm_num)
  have hg : (⟨s.x + (g.x - s.x) * (((50:ℕ):ℝ) / 50),
      s.y + (g.y - s.y) * (((50:ℕ):ℝ) / 50)⟩ : coord) = g := by
    rw [coord.mk.injEq]
    constructor <;> (push_cast; ring)
  rw [h50, hg]

theorem c2_trajectory_shape_witness :
    is_given_inputs_feasible ⟨0, 2⟩ ⟨1, 2⟩ ⟨2, 1⟩ = .ok ∧
      ((trajectory ⟨0, 2⟩ ⟨1, 2⟩ ⟨2, 1⟩ 50).length = 51 ∧
       (trajectory ⟨0, 2⟩ ⟨1, 2⟩ ⟨2, 1⟩ 50).get? 0 =
          some (⟨0, 2⟩, from_pos_to_angle ⟨0, 2⟩ ⟨2, 1⟩) ∧
       (∀ i : ℕ, 1 ≤ i → i ≤ 50 →
         (trajectory ⟨0, 2⟩ ⟨1, 2⟩ ⟨2, 1⟩ 50).get? i =
           some (⟨0 + (1 - 0) * ((i : ℝ) / 50), 2 + (2 - 2) * ((i : ℝ) / 50)⟩,
             from_pos_to_angle
               ⟨0 + (1 - 0) * ((i : ℝ) / 50), 2 + (2 - 2) * ((i : ℝ) / 50)⟩ ⟨2, 1⟩)) ∧
       (trajectory ⟨0, 2⟩ ⟨1, 2⟩ ⟨2, 1⟩ 50).get? 50 =
          some (⟨1, 2⟩, from_pos_to_angle ⟨1, 2⟩ ⟨2, 1⟩)) := by
  have hok : is_given_inputs_feasible ⟨0, 2⟩ ⟨1, 2⟩ ⟨2, 1⟩ = .ok := by
    have hsome := @lineDist_eq_some ⟨0, 2⟩ ⟨1, 2⟩ (by norm_num)
    refine feas_eq_ok (not_outOfRange_cond ?_ ?_ ?_ ?_) ?_ ?_
    · rw [show |(2:ℝ) - 1| = 1 by norm_num]
      exact le_sqrt_of_mul_self_le (by norm_num) (by norm_num)
    · exact sqrt_le_of_le_mul_self (by norm_num) (by norm_num)
    · rw [show |(2:ℝ) - 1| = 1 by norm_num]
      exact le_sqrt_of_mul_self_le (by norm_num) (by norm_num)
    · exact sqrt_le_of_le_mul_self (by norm_num) (by norm_num)
    · rw [hsome]
      intro h
      rw [distLt_some] at h
      rw [show |(2:ℝ) - 1| = 1 by norm_num] at h
      have h2 : |(2:ℝ) * (0 - 1) - (2 - 2) * 0| / Real.sqrt
          (((2:ℝ) - 2) * (2 - 2) + (-0 + 1) * (-0 + 1)) = 2 := by
        norm_num
      rw [h2] at h
      exact absurd h (by norm_num)
    · rintro ⟨h, -⟩
      exact absurd h (by norm_num)
  exact ⟨hok, c2_trajectory_shape ⟨0, 2⟩ ⟨1, 2⟩ ⟨2, 1⟩ hok⟩

/-- C8: whenever the feasibility check signals an error, the run exits
with code 0 carrying the diagnostic message of the failed condition, and
no table of rows is produced. -/
theorem c8_error_terminates (s g L : coord)
    (h : is_given_inputs_feasible s g L ≠ .ok) :
    (is_given_inputs_feasible s g L = .outOfRange →
      runMain s g L = .exited .notInOperableRange 0) ∧
    (is_given_inputs_feasible s g L = .pathInfeasible →
      runMain s g L = .exited .straightLineNotPossible 0) ∧
    (is_given_inputs_feasible s g L = .singularPath →
      runMain s g L = .exited .includesSingularPoint 0) ∧
    ∀ rows, runMain s g L ≠ .completed rows := by
  unfold runMain
  cases hres : is_given_inputs_feasible s g L
  case ok => exact absurd hres h
  case outOfRange =>
    refine ⟨fun _ => rfl, fun hc => absurd hc (by simp), fun hc => absurd hc (by simp),
      fun rows hc => ?_⟩
    simp at hc
  case pathInfeasible =>
    refine ⟨fun hc => absurd hc (by simp), fun _ => rfl, fun hc => absurd hc (by simp),
      fun rows hc => ?_⟩
    simp at hc
  case singularPath =>
    refine ⟨fun hc => absurd hc (by simp), fun hc => absurd hc (by simp), fun _ => rfl,
      fun rows hc => ?_⟩
    simp at hc

theorem c8_error_terminates_witness :
    is_given_inputs_feasible ⟨5, 5⟩ ⟨1, 0⟩ ⟨3, 1⟩ ≠ .ok ∧
      ((is_given_inputs_feasible ⟨5, 5⟩ ⟨1, 0⟩ ⟨3, 1⟩ = .outOfRange →
         runMain ⟨5, 5⟩ ⟨1, 0⟩ ⟨3, 1⟩ = .exited .notInOperableRange 0) ∧
       (is_given_inputs_feasible ⟨5, 5⟩ ⟨1, 0⟩ ⟨3, 1⟩ = .pathInfeasible →
         runMain ⟨5, 5⟩ ⟨1, 0⟩ ⟨3, 1⟩ = .exited .straightLineNotPossible 0) ∧
       (is_given_inputs_feasible ⟨5, 5⟩ ⟨1, 0⟩ ⟨3, 1⟩ = .singularPath →
         runMain ⟨5, 5⟩ ⟨1, 0⟩ ⟨3, 1⟩ = .exited .includesSingularPoint 0) ∧
       ∀ rows, runMain ⟨5, 5⟩ ⟨1, 0⟩ ⟨3, 1⟩ ≠ .completed rows) := by
  have hout : is_given_inputs_feasible ⟨5, 5⟩ ⟨1, 0⟩ ⟨3, 1⟩ = .outOfRange :=
    feas_eq_outOfRange (Or.inl (lt_sqrt_of_mul_self_lt (by norm_num) (by norm_num)))
  have hne : is_given_inputs_feasible ⟨5, 5⟩ ⟨1, 0⟩ ⟨3, 1⟩ ≠ .ok := by
    rw [hout]
    exact fun hc => nomatch hc
  exact ⟨hne, c8_error_terminates ⟨5, 5⟩ ⟨1, 0⟩ ⟨3, 1⟩ hne⟩

/-- C10 counterexample: at the input named by the claim
(L1 = 3, L2 = 1, start = (3, 0.1), goal = (4, 0.1)) the goal position
lies outside the reachable annulus (`norm(4, 0.1) > L1 + L2`), so the
check signals `OutOfRange` there, not `PathInfeasible`. -/
theorem c10_claimed_example_fails :
    norm 4 (1/10) > (3:ℝ) + 1 ∧
    is_given_inputs_feasible ⟨3, 1/10⟩ ⟨4, 1/10⟩ ⟨3, 1⟩ = .outOfRange ∧
    is_given_inputs_feasible ⟨3, 1/10⟩ ⟨4, 1/10⟩ ⟨3, 1⟩ ≠ .pathInfeasible := by
  have hn : norm 4 (1/10) > (3:ℝ) + 1 :=
    lt_sqrt_of_mul_self_lt (by norm_num) (by norm_num)
  have hout : is_given_inputs_feasible ⟨3, 1/10⟩ ⟨4, 1/10⟩ ⟨3, 1⟩ = .outOfRange :=
    @feas_eq_outOfRange ⟨3, 1/10⟩ ⟨4, 1/10⟩ ⟨3, 1⟩ (Or.inr (Or.inr (Or.inl hn)))
  refine ⟨hn, hout, ?_⟩
  rw [hout]
  simp

/-- C10 amended: the clearance distance is measured from the origin to
the infinite line through start and goal, not to the segment between
them: with L1 = 3, L2 = 1, start = (2, 1), goal = (3, 1), both endpoints
lie in the reachable annulus and every point of the segment from start
to goal has norm at least |L1 - L2|, yet the check signals
`PathInfeasible`. -/
theorem c10_line_not_segment :
    ((|(3:ℝ) - 1| ≤ norm 2 1 ∧ norm 2 1 ≤ 3 + 1) ∧
     (|(3:ℝ) - 1| ≤ norm 3 1 ∧ norm 3 1 ≤ 3 + 1)) ∧
    (∀ t : ℝ, |(3:ℝ) - 1| ≤
      norm (2 + min (max t 0) 1 * (3 - 2)) (1 + min (max t 0) 1 * (1 - 1))) ∧
    is_given_inputs_feasible ⟨2, 1⟩ ⟨3, 1⟩ ⟨3, 1⟩ = .pathInfeasible := by
  have habs : |(3:ℝ) - 1| = 2 := by norm_num
  refine ⟨⟨⟨?_, ?_⟩, ⟨?_, ?_⟩⟩, ?_, ?_⟩
  · rw [habs]
    exact le_sqrt_of_mul_self_le (by norm_num) (by norm_num)
  · exact sqrt_le_of_le_mul_self (by norm_num) (by norm_num)
  · rw [habs]
    exact le_sqrt_of_mul_self_le (by norm_num) (by norm_num)
  · exact sqrt_le_of_le_mul_self (by norm_num) (by norm_num)
  · intro t
    have hu0 : 0 ≤ min (max t 0) 1 := le_min (le_max_right t 0) zero_le_one
    rw [habs]
    refine le_sqrt_of_mul_self_le (by norm_num) ?_
    nlinarith [hu0]
  · refine feas_eq_pathInfeasible (not_outOfRange_cond ?_ ?_ ?_ ?_) ?_
    · rw [habs]
      exact le_sqrt_of_mul_self_le (by norm_num) (by norm_num)
    · exact sqrt_le_of_le_mul_self (by norm_num) (by norm_num)
    · rw [habs]
      exact le_sqrt_of_mul_self_le (by norm_num) (by norm_num)
    · exact sqrt_le_of_le_mul_self (by norm_num) (by norm_num)
    · rw [@lineDist_eq_some ⟨2, 1⟩ ⟨3, 1⟩ (by norm_num), distLt_some, habs]
      have h1 : |(1:ℝ) * (2 - 3) - (1 - 1) * 2| / Real.sqrt
          (((1:ℝ) - 1) * (1 - 1) + (-2 + 3) * (-2 + 3)) = 1 := by
        norm_num
      rw [h1]
      norm_num

/-- Plane rotation decomposition behind the solver round-trip: if
`(k1, k2)` has the same sum of squares as `(x, y)`, then rotating
`(k1, k2)` by the angle `atan2 y x - atan2 k2 k1` yields `(x, y)`. -/
theorem rotation_identity (x y k1 k2 : ℝ)
    (hk : k1 * k1 + k2 * k2 = x * x + y * y) :
    Real.cos (atan2 y x - atan2 k2 k1) * k1 -
        Real.sin (atan2 y x - atan2 k2 k1) * k2 = x ∧
    Real.sin (atan2 y x - atan2 k2 k1) * k1 +
        Real.cos (atan2 y x - atan2 k2 k1) * k2 = y := by
  have hzx : Complex.abs ⟨x, y⟩ * Real.cos (Complex.arg ⟨x, y⟩) = x :=
    Complex.abs_mul_cos_arg ⟨x, y⟩
  have hzy : Complex.abs ⟨x, y⟩ * Real.sin (Complex.arg ⟨x, y⟩) = y :=
    Complex.abs_mul_sin_arg ⟨x, y⟩
  have hwx : Complex.abs ⟨k1, k2⟩ * Real.cos (Complex.arg ⟨k1, k2⟩) = k1 :=
    Complex.abs_mul_cos_arg ⟨k1, k2⟩
  have hwy : Complex.abs ⟨k1, k2⟩ * Real.sin (Complex.arg ⟨k1, k2⟩) = k2 :=
    Complex.abs_mul_sin_arg ⟨k1, k2⟩
  have habs : Complex.abs ⟨k1, k2⟩ = Complex.abs ⟨x, y⟩ := by
    rw [Complex.abs_apply, Complex.abs_apply, Complex.normSq_mk, Complex.normSq_mk, hk]
  have hpyth := Real.sin_sq_add_cos_sq (Complex.arg ⟨k1, k2⟩)
  constructor
  · simp only [atan2]
    rw [Real.cos_sub, Real.sin_sub]
    linear_combination
      (-(Real.cos (Complex.arg ⟨x, y⟩) * Real.cos (Complex.arg ⟨k1, k2⟩) +
          Real.sin (Complex.arg ⟨x, y⟩) * Real.sin (Complex.arg ⟨k1, k2⟩))) * hwx +
        (Real.sin (Complex.arg ⟨x, y⟩) * Real.cos (Complex.arg ⟨k1, k2⟩) -
          Real.cos (Complex.arg ⟨x, y⟩) * Real.sin (Complex.arg ⟨k1, k2⟩)) * hwy +
        hzx + Real.cos (Complex.arg ⟨x, y⟩) * habs +
        Complex.abs ⟨k1, k2⟩ * Real.cos (Complex.arg ⟨x, y⟩) * hpyth
  · simp only [atan2]
    rw [Real.cos_sub, Real.sin_sub]
    linear_combination
      (-(Real.sin (Complex.arg ⟨x, y⟩) * Real.cos (Complex.arg ⟨k1, k2⟩) -
          Real.cos (Complex.arg ⟨x, y⟩) * Real.sin (Complex.arg ⟨k1, k2⟩))) * hwx +
        (-(Real.cos (Complex.arg ⟨x, y⟩) * Real.cos (Complex.arg ⟨k1, k2⟩) +
          Real.sin (Complex.arg ⟨x, y⟩) * Real.sin (Complex.arg ⟨k1, k2⟩))) * hwy +
        hzy + Real.sin (Complex.arg ⟨x, y⟩) * habs +
        Complex.abs ⟨k1, k2⟩ * Real.sin (Complex.arg ⟨x, y⟩) * hpyth

/-- C6: the forward-kinematics reconstruction
`x = L1 cos(theta1) + L2 cos(theta1 + theta2)`,
`y = L1 sin(theta1) + L2 sin(theta1 + theta2)` applied to the solver
output reproduces the input position exactly over real arithmetic, for
any position in the reachable annulus of positive link lengths. -/
theorem c6_roundtrip (p L : coord) (hL1 : 0 < L.x) (hL2 : 0 < L.y)
    (hlo : |L.x - L.y| ≤ norm p.x p.y) (hhi : norm p.x p.y ≤ L.x + L.y) :
    L.x * Real.cos (from_pos_to_angle p L).x +
        L.y * Real.cos ((from_pos_to_angle p L).x + (from_pos_to_angle p L).y) = p.x ∧
    L.x * Real.sin (from_pos_to_angle p L).x +
        L.y * Real.sin ((from_pos_to_angle p L).x + (from_pos_to_angle p L).y) = p.y := by
  obtain ⟨hq1, hq2⟩ := arccos_arg_bounds hL1 hL2 hlo hhi
  have hcos := Real.cos_arccos hq1 hq2
  have hq' : 2 * L.x * L.y *
      ((p.x * p.x + p.y * p.y - L.x * L.x - L.y * L.y) / (2 * L.x * L.y)) =
      p.x * p.x + p.y * p.y - L.x * L.x - L.y * L.y := by
    field_simp
  have hpyth := Real.sin_sq_add_cos_sq (Real.arccos
    ((p.x * p.x + p.y * p.y - L.x * L.x - L.y * L.y) / (2 * L.x * L.y)))
  have hk : (L.x + L.y * Real.cos (Real.arccos
        ((p.x * p.x + p.y * p.y - L.x * L.x - L.y * L.y) / (2 * L.x * L.y)))) *
      (L.x + L.y * Real.cos (Real.arccos
        ((p.x * p.x + p.y * p.y - L.x * L.x - L.y * L.y) / (2 * L.x * L.y)))) +
      (L.y * Real.sin (Real.arccos
        ((p.x * p.x + p.y * p.y - L.x * L.x - L.y * L.y) / (2 * L.x * L.y)))) *
      (L.y * Real.sin (Real.arccos
        ((p.x * p.x + p.y * p.y - L.x * L.x - L.y * L.y) / (2 * L.x * L.y)))) =
      p.x * p.x + p.y * p.y := by
    linear_combination L.y * L.y * hpyth + 2 * L.x * L.y * hcos + hq'
  obtain ⟨R1, R2⟩ := rotation_identity p.x p.y _ _ hk
  constructor
  · simp only [from_pos_to_angle]
    rw [Real.cos_add]
    linear_combination R1
  · simp only [from_pos_to_angle]
    rw [Real.sin_add]
    linear_combination R2

theorem c6_roundtrip_witness :
    (0:ℝ) < 1 ∧
      ((1:ℝ) * Real.cos (from_pos_to_angle ⟨2, 0⟩ ⟨1, 1⟩).x +
          1 * Real.cos ((from_pos_to_angle ⟨2, 0⟩ ⟨1, 1⟩).x +
            (from_pos_to_angle ⟨2, 0⟩ ⟨1, 1⟩).y) = 2 ∧
       (1:ℝ) * Real.sin (from_pos_to_angle ⟨2, 0⟩ ⟨1, 1⟩).x +
          1 * Real.sin ((from_pos_to_angle ⟨2, 0⟩ ⟨1, 1⟩).x +
            (from_pos_to_angle ⟨2, 0⟩ ⟨1, 1⟩).y) = 0) :=
  ⟨by norm_num,
    c6_roundtrip ⟨2, 0⟩ ⟨1, 1⟩ (by norm_num) (by norm_num)
      (by
        rw [show |(1:ℝ) - 1| = 0 by norm_num]
        exact Real.sqrt_nonneg _)
      (sqrt_le_of_le_mul_self (by norm_num) (by norm_num))⟩

end TwoLink
